import Mathlib

/-!
Shallow embedding of go-change-ref (main.go): a tool that rewrites all
references to one Go package-level symbol into references to another,
across the packages of a project.

Modelling conventions:
  - Pointer identity of AST identifier nodes (used by TypesInfo.Uses and
    the usedIdents set) is modelled by a numeric node id on each Ident.
  - types.Object values are modelled by numeric object ids.
  - Go maps built then queried by key are modelled as association lists
    with keep-last-insertion semantics (mapPut / List.lookup).
  - Multi-child AST nodes other than SelectorExpr/StarExpr are modelled by
    a unary paren node and a binary call node; astutil.Apply visits every
    child field uniformly and independently, so this loses no structure
    relevant to matching or replacement.
  - The external pretty printer and goimports (imports.Process) are
    collaborators outside the core; an emitted file is modelled by its
    rewritten declarations plus the import that astutil.AddImport /
    AddNamedImport registered, not by final text.
-/

namespace GoChangeRef

/-- An ast.Ident: `id` models the node's pointer identity, `name` its text. -/
structure Ident where
  id : Nat
  name : String
deriving DecidableEq, Repr

/-- Go expressions, as far as the rewrite inspects them: ast.Ident,
ast.SelectorExpr (whose Sel field is itself an Ident node),
ast.StarExpr, ast.ParenExpr, and ast.CallExpr (modelled binary). -/
inductive Expr where
  | ident (i : Ident)
  | selector (x : Expr) (sel : Ident)
  | star (x : Expr)
  | paren (x : Expr)
  | call (fn : Expr) (arg : Expr)
deriving DecidableEq, Repr

/-- Top-level declarations of a file: ast.FuncDecl (name, optional
receiver type expression Recv.List[0].Type, parameter/result type
expressions, body expressions) and ast.GenDecl (its expressions).
A declaration name is a defining identifier, never in TypesInfo.Uses. -/
inductive Decl where
  | func (nm : Ident) (recv : Option Expr) (ptypes : List Expr) (body : List Expr)
  | gen (exprs : List Expr)
deriving DecidableEq, Repr

/-- An ast.ImportSpec: optional explicit alias, import path, and the
implicit package name recorded in TypesInfo.Implicits. -/
structure ImportSpec where
  aliasName : Option String
  path : String
  implicitName : String
deriving DecidableEq, Repr

/-- A source file (ast.File): position string of its start (used in
diagnostics), declarations, and import specs. -/
structure File where
  fname : String
  decls : List Decl
  imports : List ImportSpec
deriving DecidableEq, Repr

/-- One entry of pkg.Types.Imports(): an imported types.Package with its
path and exported scope (name to object id). -/
structure ImportedPkg where
  path : String
  scope : List (String × Nat)
deriving DecidableEq, Repr

/-- A packages.Package as the core consumes it. `id` is the loader's
package identifier returned by Package.String(), the canonical package
path. `uses` is TypesInfo.Uses as (ident node id, object id) pairs. -/
structure Pkg where
  id : String
  pkgPath : String
  name : String
  scope : List (String × Nat)
  imports : List ImportedPkg
  uses : List (Nat × Nat)
  files : List File
deriving DecidableEq, Repr

/-- The destination package loaded by loadToPkg: its name and path. -/
structure PkgRef where
  name : String
  pkgPath : String
deriving DecidableEq, Repr

/-- The parameters structure built by parseParamters. -/
structure Parameters where
  fromPkgPath : String
  fromName : String
  toPkgPath : String
  toName : String
  toPkgName : String
  dir : String
  overwrite : Bool
deriving DecidableEq, Repr

/-- The errors processPackage can return: the two symbol-resolution
failures and the package-name conflict (which carries the file position
and the colliding package name, as the formatted message does). -/
inductive ProcError where
  | notFoundLocally (pkgPath : String) (name : String)
  | notFoundInPackage (name : String) (pkgPath : String)
  | conflict (pos : String) (pkgName : String)
deriving DecidableEq, Repr

/-- A file handed to the result presenter: its filename, rewritten
declarations, and the import registered for the destination
(none for a local destination; (some alias, path) for AddNamedImport,
(none, path) for plain AddImport). -/
structure FileOut where
  fname : String
  decls : List Decl
  added : Option (Option String × String)
deriving DecidableEq, Repr

/-! ### Map and scope helpers -/

/-- Insertion into a Go map: overwrites any previous binding of the key. -/
def mapPut (m : List (String × String)) (k v : String) : List (String × String) :=
  m.filter (fun p => p.1 ≠ k) ++ [(k, v)]

/-- Lookup in a Go map modelled as an association list. -/
def mapGet (m : List (String × String)) (k : String) : Option String :=
  List.lookup k m

/-- The display name of an import spec: its explicit alias if present,
else the implicit package name from TypesInfo.Implicits. -/
def displayName (s : ImportSpec) : String :=
  match s.aliasName with
  | some n => n
  | none => s.implicitName

/-- buildImportPathMap: the map from import path to package display name
built from the file's import declarations. -/
def buildImportPathMap (f : File) : List (String × String) :=
  f.imports.foldl (fun m s => mapPut m s.path (displayName s)) []

/-- The inverted map (name to import path) built in processPackage by
ranging over the import-path map. -/
def invert (m : List (String × String)) : List (String × String) :=
  m.foldl (fun inv p => mapPut inv p.2 p.1) []

/-- types.Scope.Lookup on a modelled scope. -/
def scopeLookup (scope : List (String × Nat)) (nm : String) : Option Nat :=
  List.lookup nm scope

/-- findImportScope: the scope of the first imported package whose path
matches, as in the source. -/
def findImportScope (impts : List ImportedPkg) (pkgPath : String) : Option (List (String × Nat)) :=
  match impts with
  | [] => none
  | i :: rest => if i.path = pkgPath then some i.scope else findImportScope rest pkgPath

/-! ### Reference classification -/

/-- The membership test of the usedIdents set: an ident node id is used
iff TypesInfo.Uses maps it to the target object. -/
def usedIdentSet (pkg : Pkg) (target : Nat) : Nat → Bool :=
  fun nodeId => pkg.uses.any (fun u => u.1 == nodeId && u.2 == target)

/-- The receiver-type base identifier of a method declaration: the
receiver type expression with one level of StarExpr stripped, if it is
an identifier. -/
def recvBaseIdent (recvType : Expr) : Option Ident :=
  match (match recvType with | .star x => x | e => e) with
  | .ident i => some i
  | _ => none

/-- The receiver-type ident node ids of a declaration list: the loop over
a file's declarations collecting receiver identifiers of its methods. -/
def receiverIdsOfDecls : List Decl → List Nat
  | [] => []
  | .func _ (some r) _ _ :: rest =>
      (match recvBaseIdent r with
       | some i => i.id :: receiverIdsOfDecls rest
       | none => receiverIdsOfDecls rest)
  | .func _ none _ _ :: rest => receiverIdsOfDecls rest
  | .gen _ :: rest => receiverIdsOfDecls rest

/-- The ident node ids deleted from usedIdents for one file: the receiver
type identifiers of its method declarations. -/
def fileReceiverIds (f : File) : List Nat :=
  receiverIdsOfDecls f.decls

/-- All receiver-type ident node ids of the package (the deletion loop
runs over every file of pkg.Syntax). -/
def receiverIds (pkg : Pkg) : List Nat :=
  (pkg.files.map fileReceiverIds).flatten

/-- The usedIdents set after the receiver deletion pass, which runs only
when the from package is the package being processed. -/
def effectiveUsed (pkg : Pkg) (fromLocal : Bool) (target : Nat) : Nat → Bool :=
  if fromLocal then
    fun nodeId => usedIdentSet pkg target nodeId && !((receiverIds pkg).contains nodeId)
  else
    usedIdentSet pkg target

/-- nodeFilter: in local mode an Ident node matches iff it is in
usedIdents; in remote mode a SelectorExpr matches iff its Sel ident is
in usedIdents. No other node matches. -/
def nodeFilter (fromLocal : Bool) (used : Nat → Bool) : Expr → Bool
  | .ident i => fromLocal && used i.id
  | .selector _ s => !fromLocal && used s.id
  | _ => false

/-! ### Rewriting -/

/-- The replacement node: a bare Ident named toName when the destination
package is the package being processed, else a SelectorExpr
toPkgName.toName. Fresh nodes carry node id 0; they are never in any
use table. -/
def replNode (toLocal : Bool) (toPkgName : String) (toName : String) : Expr :=
  if toLocal then .ident ⟨0, toName⟩
  else .selector (.ident ⟨0, toPkgName⟩) ⟨0, toName⟩

/-- The substitution of a matched Sel ident: the replacement if it is an
identifier, the original otherwise (with any other replacement shape the
original program would fail on the typed Sel field, a case that cannot
arise because a use of a package-level symbol is never a Sel ident when
matching in local mode against real Go use tables). -/
def replaceSel (repl : Expr) (s : Ident) : Ident :=
  match repl with
  | .ident j => j
  | _ => s

/-- astutil.Apply with the replacing visitor: a matching node is replaced
by the replacement node, and the traversal of the replacement stops
there (Apply keeps walking the children of the detached original node,
which cannot affect the attached tree). A Sel ident of a selector is
visited as a node of its own and substituted when matched. -/
def rewriteExpr (filt : Expr → Bool) (repl : Expr) : Expr → Expr
  | .ident i => if filt (.ident i) then repl else .ident i
  | .selector x s =>
      if filt (.selector x s) then repl
      else
        .selector (rewriteExpr filt repl x)
          (if filt (.ident s) then replaceSel repl s else s)
  | .star x => if filt (.star x) then repl else .star (rewriteExpr filt repl x)
  | .paren x => if filt (.paren x) then repl else .paren (rewriteExpr filt repl x)
  | .call fn a =>
      if filt (.call fn a) then repl
      else .call (rewriteExpr filt repl fn) (rewriteExpr filt repl a)

/-- Rewriting one top-level declaration: Apply is invoked on each
declaration independently and visits its expression children (a
declaration name is a defining occurrence, never in the use table). -/
def rewriteDecl (filt : Expr → Bool) (repl : Expr) : Decl → Decl
  | .func nm recv pt bd =>
      .func nm (recv.map (rewriteExpr filt repl)) (pt.map (rewriteExpr filt repl))
        (bd.map (rewriteExpr filt repl))
  | .gen es => .gen (es.map (rewriteExpr filt repl))

/-- Whether the traversal of an expression encounters any matching node
(this is what sets the updated flag). -/
def exprHasMatch (filt : Expr → Bool) : Expr → Bool
  | .ident i => filt (.ident i)
  | .selector x s => filt (.selector x s) || exprHasMatch filt x || filt (.ident s)
  | .star x => filt (.star x) || exprHasMatch filt x
  | .paren x => filt (.paren x) || exprHasMatch filt x
  | .call fn a => filt (.call fn a) || exprHasMatch filt fn || exprHasMatch filt a

/-- The expression slots of a declaration, in traversal order. -/
def declSlots : Decl → List Expr
  | .func _ recv pt bd => recv.toList ++ pt ++ bd
  | .gen es => es

/-- Whether rewriting a declaration sets the updated flag. -/
def declHasMatch (filt : Expr → Bool) (d : Decl) : Bool :=
  (declSlots d).any (exprHasMatch filt)

/-! ### Per-file processing -/

/-- The package name used to qualify the destination in one file: the
destination package's own name, unless the file's inverted import map
binds that name to a different path, in which case the -to-pkg-name
override is used if set and the conflict error is returned otherwise. -/
def resolveToPkgName (params : Parameters) (toPkg : PkgRef) (f : File) :
    Except ProcError String :=
  match mapGet (invert (buildImportPathMap f)) toPkg.name with
  | some path =>
      if path ≠ toPkg.pkgPath then
        if params.toPkgName = "" then .error (.conflict f.fname toPkg.name)
        else .ok params.toPkgName
      else .ok toPkg.name
  | none => .ok toPkg.name

/-- Processing one file of a package: resolve the destination package
name (possibly failing on a conflict), rewrite every declaration, and
emit the file iff some node matched, registering the destination import
when the destination is remote (named iff the resolved name differs
from the destination package's own name). -/
def processFile (params : Parameters) (toPkg : PkgRef) (fromLocal toLocal : Bool)
    (used : Nat → Bool) (f : File) : Except ProcError (Option FileOut) :=
  match resolveToPkgName params toPkg f with
  | .error e => .error e
  | .ok toPkgName =>
      let filt := nodeFilter fromLocal used
      let repl := replNode toLocal toPkgName params.toName
      if f.decls.any (declHasMatch filt) then
        let newDecls := f.decls.map (rewriteDecl filt repl)
        let added :=
          if toLocal then none
          else if toPkgName ≠ toPkg.name then some (some toPkgName, params.toPkgPath)
          else some (none, params.toPkgPath)
        .ok (some ⟨f.fname, newDecls, added⟩)
      else .ok none

/-! ### Per-package processing -/

/-- Resolution of the target symbol in processPackage: locally when the
package is the from package (an absent name is an error), else in the
scope of the imported from package (not importing it at all means the
package is skipped; an absent name in an imported scope is an error). -/
def resolveTargetObj (pkg : Pkg) (params : Parameters) : Except ProcError (Option Nat) :=
  if pkg.pkgPath = params.fromPkgPath then
    match scopeLookup pkg.scope params.fromName with
    | none => .error (.notFoundLocally params.fromPkgPath params.fromName)
    | some t => .ok (some t)
  else
    match findImportScope pkg.imports params.fromPkgPath with
    | none => .ok none
    | some sc =>
        match scopeLookup sc params.fromName with
        | none => .error (.notFoundInPackage params.fromName params.fromPkgPath)
        | some t => .ok (some t)

/-- The file loop of processPackage: emitted files accumulate in order
(through the result presenter) until the first error, which stops the
loop. -/
def processFiles (params : Parameters) (toPkg : PkgRef) (fromLocal toLocal : Bool)
    (used : Nat → Bool) : List File → List FileOut × Option ProcError
  | [] => ([], none)
  | f :: rest =>
      match processFile params toPkg fromLocal toLocal used f with
      | .error e => ([], some e)
      | .ok none => processFiles params toPkg fromLocal toLocal used rest
      | .ok (some o) =>
          (o :: (processFiles params toPkg fromLocal toLocal used rest).1,
           (processFiles params toPkg fromLocal toLocal used rest).2)

/-- processPackage: the emitted files of the package plus the first
error, if any. -/
def processPackage (pkg : Pkg) (params : Parameters) (toPkg : PkgRef) :
    List FileOut × Option ProcError :=
  match resolveTargetObj pkg params with
  | .error e => ([], some e)
  | .ok none => ([], none)
  | .ok (some target) =>
      let fromLocal := decide (pkg.pkgPath = params.fromPkgPath)
      let toLocal := decide (pkg.pkgPath = params.toPkgPath)
      processFiles params toPkg fromLocal toLocal
        (effectiveUsed pkg fromLocal target) pkg.files

/-! ### The driver -/

/-- Bytewise (modelled characterwise) lexicographic string comparison, the
order Go uses to compare strings. -/
def charListLe : List Char → List Char → Bool
  | [], _ => true
  | _ :: _, [] => false
  | a :: as, b :: bs => if a = b then charListLe as bs else decide (a < b)

/-- Go string comparison a less-or-equal b. -/
def strLe (a b : String) : Bool := charListLe a.data b.data

/-- The sort of the loaded packages: sort.Slice comparing
Package.String(), i.e. the package identifiers. -/
def sortPkgs (pkgs : List Pkg) : List Pkg :=
  List.insertionSort (fun a b => strLe a.id b.id = true) pkgs

/-- The package loop of process: packages in sorted order, stopping at
the first error; emissions of packages processed before the error have
already reached the presenter. -/
def processSorted (params : Parameters) (toPkg : PkgRef) :
    List Pkg → List FileOut × Option ProcError
  | [] => ([], none)
  | p :: rest =>
      match (processPackage p params toPkg).2 with
      | some e => ((processPackage p params toPkg).1, some e)
      | none =>
          ((processPackage p params toPkg).1 ++ (processSorted params toPkg rest).1,
           (processSorted params toPkg rest).2)

/-- process: sort the loaded packages, then run the fail-fast loop. -/
def process (params : Parameters) (toPkg : PkgRef) (pkgs : List Pkg) :
    List FileOut × Option ProcError :=
  processSorted params toPkg (sortPkgs pkgs)

/-- The buffered presenter policy of main with the overwrite flag set:
writeContent only accumulates, and the buffer is flushed to disk only
when process returned no error (log.Fatal otherwise ends the program
before flush). The result is the list of files actually written. -/
def mainBuffered (params : Parameters) (toPkg : PkgRef) (pkgs : List Pkg) :
    List FileOut :=
  match process params toPkg pkgs with
  | (outs, none) => outs
  | (_, some _) => []

/-! ### Parameter parsing -/

/-- The index of the last dot in a character list (strings.LastIndex). -/
def lastDotIdx : List Char → Option Nat
  | [] => none
  | c :: rest =>
      match lastDotIdx rest with
      | some i => some (i + 1)
      | none => if c = '.' then some 0 else none

/-- Splitting a flag value at its last dot: the part before is the
package path, the part after the symbol name. -/
def splitAtLastDot (s : String) : Option (String × String) :=
  match lastDotIdx s.data with
  | none => none
  | some i => some (⟨s.data.take i⟩, ⟨s.data.drop (i + 1)⟩)

/-- parseParamters: split -from and then -to at their last dot, failing
on a value with no dot; -to-pkg-name, the directory argument and -w are
passed through. -/
def parseParamters (flagFrom flagTo flagToPkgName : String) (dir : String)
    (overwrite : Bool) : Except String Parameters :=
  match splitAtLastDot flagFrom with
  | none => .error "-from does not contain a dot"
  | some (fromPkgPath, fromName) =>
      match splitAtLastDot flagTo with
      | none => .error "-to does not contain a dot"
      | some (toPkgPath, toName) =>
          .ok ⟨fromPkgPath, fromName, toPkgPath, toName, flagToPkgName, dir, overwrite⟩

/-! ### Tree positions

A position in an expression is a path of child-field steps; these are the
positions the cursor of astutil.Apply can replace. -/

/-- One step into a child expression field of a node. -/
inductive Step where
  | selX
  | starX
  | parenX
  | callFn
  | callArg
deriving DecidableEq, Repr

/-- The child expression of a node under one step. -/
def childAt : Expr → Step → Option Expr
  | .selector x _, .selX => some x
  | .star x, .starX => some x
  | .paren x, .parenX => some x
  | .call fn _, .callFn => some fn
  | .call _ a, .callArg => some a
  | _, _ => none

/-- The subexpression at a path, if the path exists in the tree. -/
def subtreeAt : Expr → List Step → Option Expr
  | e, [] => some e
  | e, st :: p =>
      match childAt e st with
      | some c => subtreeAt c p
      | none => none

/-- The proper prefixes of a path. -/
def properPrefixes : List Step → List (List Step)
  | [] => []
  | st :: p => [] :: (properPrefixes p).map (st :: ·)

/-- The node at one ancestor position is not matched (vacuously true for
a missing position). -/
def prefixOk (filt : Expr → Bool) (o : Option Expr) : Bool :=
  match o with
  | some t => !(filt t)
  | none => true

/-- No strict ancestor of the position is itself matched by the filter
(such a position is one the traversal actually replaces, since Apply
replaces the outermost matching node on each branch). -/
def noEarlierMatch (filt : Expr → Bool) (e : Expr) (p : List Step) : Bool :=
  (properPrefixes p).all (fun q => prefixOk filt (subtreeAt e q))

/-! ### Rendering

The textual reading of a tree, used to compare input and output
occurrences of references. -/

/-- The source text an expression renders to. -/
def render : Expr → String
  | .ident i => i.name
  | .selector x s => render x ++ "." ++ s.name
  | .star x => "*" ++ render x
  | .paren x => "(" ++ render x ++ ")"
  | .call fn a => render fn ++ "(" ++ render a ++ ")"

/-- The rendered expression slots of a declaration. -/
def renderDecl (d : Decl) : List String :=
  (declSlots d).map render

/-- Every identifier node occurring in an expression, the Sel idents of
selectors included (exactly the Ident nodes Apply visits). -/
def exprIdents : Expr → List Ident
  | .ident i => [i]
  | .selector x s => exprIdents x ++ [s]
  | .star x => exprIdents x
  | .paren x => exprIdents x
  | .call fn a => exprIdents fn ++ exprIdents a

/-- Every selector subexpression occurring in an expression. -/
def exprSubsels : Expr → List Expr
  | .ident _ => []
  | .selector x s => .selector x s :: exprSubsels x
  | .star x => exprSubsels x
  | .paren x => exprSubsels x
  | .call fn a => exprSubsels fn ++ exprSubsels a

/-- The package has no use-table entry for the target symbol it would
resolve (the project contains no reference to the from symbol in this
package). -/
def noTargetUse (pkg : Pkg) (params : Parameters) : Bool :=
  match resolveTargetObj pkg params with
  | .ok (some t) => pkg.uses.all (fun u => !(u.2 == t))
  | _ => true

/-! ### Concrete fixtures used by witnesses and counterexamples -/

/-- Receiver-exclusion scenario: the from package declares T1, uses it in
a method receiver (through a star) and in a variable declaration. -/
def exParamsC1 : Parameters := ⟨"a/pkg1", "T1", "a/pkg2", "T2", "", "", false⟩

def exToPkgC1 : PkgRef := ⟨"pkg2", "a/pkg2"⟩

def exFileC1 : File :=
  ⟨"p1.go",
   [.func ⟨20, "Method1"⟩ (some (.star (.ident ⟨1, "T1"⟩))) [] [],
    .gen [.ident ⟨2, "T1"⟩]],
   []⟩

def exPkgC1 : Pkg :=
  ⟨"a/pkg1", "a/pkg1", "pkg1", [("T1", 5)], [], [(1, 5), (2, 5)], [exFileC1]⟩

/-- Remote-to-remote scenario for the replacement-shape claim. -/
def exParamsC2 : Parameters := ⟨"a/pkg2", "T2", "a/pkg3", "T3", "", "", false⟩

def exToPkgC2 : PkgRef := ⟨"pkg3", "a/pkg3"⟩

def exFileC2 : File :=
  ⟨"m.go",
   [.gen [.paren (.selector (.ident ⟨9, "pkg2"⟩) ⟨10, "T2"⟩)]],
   [⟨none, "a/pkg2", "pkg2"⟩]⟩

/-- Alias-conflict scenario with an override: the file imports an
unrelated x/pkg3 under the destination package name pkg3. -/
def exParamsC3 : Parameters := ⟨"a/pkg2", "T2", "a/pkg3", "T3", "pkg3x", "", false⟩

def exToPkgC3 : PkgRef := ⟨"pkg3", "a/pkg3"⟩

def exFileC3 : File :=
  ⟨"m.go",
   [.gen [.selector (.ident ⟨9, "pkg2"⟩) ⟨10, "T2"⟩]],
   [⟨none, "a/pkg2", "pkg2"⟩, ⟨none, "x/pkg3", "pkg3"⟩]⟩

def exPkgC3 : Pkg :=
  ⟨"a/pkg1", "a/pkg1", "pkg1", [], [⟨"a/pkg2", [("T2", 5)]⟩], [(10, 5)], [exFileC3]⟩

/-- Unresolved-but-applicable scenario: the package imports the from
package, whose scope does not contain the requested name T9. -/
def exParamsC4 : Parameters := ⟨"a/pkg2", "T9", "a/pkg3", "T3", "", "", false⟩

def exToPkgC4 : PkgRef := ⟨"pkg3", "a/pkg3"⟩

def exPkgC4 : Pkg :=
  ⟨"a/b", "a/b", "b", [], [⟨"a/pkg2", [("T2", 5)]⟩], [], [⟨"b.go", [], []⟩]⟩

/-- Conflict-without-reference scenario: the from package declares T1 and
contains no use of it, the destination is the package itself, and the
sole file imports an unrelated x/b under the destination name b. -/
def exParamsC5 : Parameters := ⟨"a/b", "T1", "a/b", "T1", "", "", false⟩

def exToPkgC5 : PkgRef := ⟨"b", "a/b"⟩

def exFileC5 : File := ⟨"b.go", [.gen [.ident ⟨3, "x"⟩]], [⟨none, "x/b", "b"⟩]⟩

def exPkgC5 : Pkg :=
  ⟨"a/b", "a/b", "b", [("T1", 5)], [], [], [exFileC5]⟩

/-- No-reference scenario: a package importing the from package with a
use table containing only unrelated entries. -/
def exParamsC6 : Parameters := ⟨"a/pkg2", "T2", "a/pkg3", "T3", "", "", false⟩

def exToPkgC6 : PkgRef := ⟨"pkg3", "a/pkg3"⟩

def exFileC6 : File :=
  ⟨"c.go", [.gen [.ident ⟨7, "other"⟩]], [⟨none, "a/pkg2", "pkg2"⟩]⟩

def exPkgC6 : Pkg :=
  ⟨"a/c", "a/c", "c", [], [⟨"a/pkg2", [("T2", 5), ("U", 6)]⟩], [(7, 6)], [exFileC6]⟩

def exPkgC6Skip : Pkg :=
  ⟨"a/d", "a/d", "d", [], [], [], [⟨"d.go", [.gen [.ident ⟨8, "T2"⟩]], []⟩]⟩

/-- Round-trip scenario: to equals from, and the file refers to the from
package under the custom alias p2 rather than its package name pkg2. -/
def exParamsC7 : Parameters := ⟨"a/pkg2", "T2", "a/pkg2", "T2", "", "", false⟩

def exToPkgC7 : PkgRef := ⟨"pkg2", "a/pkg2"⟩

def exFileC7 : File :=
  ⟨"b.go",
   [.gen [.selector (.ident ⟨9, "p2"⟩) ⟨10, "T2"⟩]],
   [⟨some "p2", "a/pkg2", "pkg2"⟩]⟩

def exPkgC7 : Pkg :=
  ⟨"a/b", "a/b", "b", [], [⟨"a/pkg2", [("T2", 5)]⟩], [(10, 5)], [exFileC7]⟩

/-- Round-trip scenario under the default alias, for the amended claim. -/
def exFileC7d : File :=
  ⟨"b.go",
   [.gen [.selector (.ident ⟨9, "pkg2"⟩) ⟨10, "T2"⟩]],
   [⟨none, "a/pkg2", "pkg2"⟩]⟩

/-- Driver scenario: three packages of which the middle one in sorted
order fails target resolution. -/
def exParamsC8 : Parameters := ⟨"b/x", "T", "z/y", "N", "", "", false⟩

def exToPkgC8 : PkgRef := ⟨"y", "z/y"⟩

def exPkgC8a : Pkg := ⟨"a", "a", "a", [], [], [], []⟩

def exPkgC8b : Pkg := ⟨"b", "b/x", "x", [], [], [], []⟩

def exPkgC8c : Pkg := ⟨"c", "c", "c", [], [], [], []⟩

def exPkgsC8 : List Pkg := [exPkgC8c, exPkgC8b, exPkgC8a]

/-- The emitted file of the receiver-exclusion scenario. -/
def exOutC1 : FileOut :=
  ⟨"p1.go",
   [.func ⟨20, "Method1"⟩ (some (.star (.ident ⟨1, "T1"⟩))) [] [],
    .gen [.selector (.ident ⟨0, "pkg2"⟩) ⟨0, "T2"⟩]],
   some (none, "a/pkg2")⟩

/-- The emitted file of the remote-to-remote scenario. -/
def exOutC2 : FileOut :=
  ⟨"m.go",
   [.gen [.paren (.selector (.ident ⟨0, "pkg3"⟩) ⟨0, "T3"⟩)]],
   some (none, "a/pkg3")⟩

/-- The emitted file of the alias-override scenario. -/
def exOutC3 : FileOut :=
  ⟨"m.go",
   [.gen [.selector (.ident ⟨0, "pkg3x"⟩) ⟨0, "T3"⟩]],
   some (some "pkg3x", "a/pkg3")⟩

/-- The emitted file of the round-trip default-alias scenario. -/
def exOutC7 : FileOut :=
  ⟨"b.go",
   [.gen [.selector (.ident ⟨0, "pkg2"⟩) ⟨0, "T2"⟩]],
   some (none, "a/pkg2")⟩

/-! ### Helper lemmas about rewriting -/

theorem rewriteExpr_of_filt (filt : Expr → Bool) (repl e : Expr) (h : filt e = true) :
    rewriteExpr filt repl e = repl := by
  cases e <;> simp [rewriteExpr, h]

theorem nodeFilter_star (fl : Bool) (used : Nat → Bool) (x : Expr) :
    nodeFilter fl used (.star x) = false := rfl

theorem nodeFilter_paren (fl : Bool) (used : Nat → Bool) (x : Expr) :
    nodeFilter fl used (.paren x) = false := rfl

theorem nodeFilter_call (fl : Bool) (used : Nat → Bool) (fn a : Expr) :
    nodeFilter fl used (.call fn a) = false := rfl

theorem recvBaseIdent_shape (r : Expr) (i : Ident) (h : recvBaseIdent r = some i) :
    r = .ident i ∨ r = .star (.ident i) := by
  cases r with
  | ident j => simp [recvBaseIdent] at h; left; rw [h]
  | selector x s => simp [recvBaseIdent] at h
  | star x =>
      cases x with
      | ident j => simp [recvBaseIdent] at h; right; rw [h]
      | selector y s => simp [recvBaseIdent] at h
      | star y => simp [recvBaseIdent] at h
      | paren y => simp [recvBaseIdent] at h
      | call fn a => simp [recvBaseIdent] at h
  | paren x => simp [recvBaseIdent] at h
  | call fn a => simp [recvBaseIdent] at h

theorem rewriteExpr_recv (fl : Bool) (used : Nat → Bool) (repl r : Expr) (i : Ident)
    (hr : recvBaseIdent r = some i)
    (hi : nodeFilter fl used (.ident i) = false) :
    rewriteExpr (nodeFilter fl used) repl r = r := by
  rcases recvBaseIdent_shape r i hr with h | h <;> subst h
  · simp [rewriteExpr, hi]
  · simp only [rewriteExpr, nodeFilter_star, hi, Bool.false_eq_true, if_false]

theorem mem_receiverIdsOfDecls (ds : List Decl) (nm : Ident) (r : Expr)
    (pt bd : List Expr) (i : Ident)
    (hd : Decl.func nm (some r) pt bd ∈ ds) (hr : recvBaseIdent r = some i) :
    i.id ∈ receiverIdsOfDecls ds := by
  induction ds with
  | nil => cases hd
  | cons d rest ih =>
      rcases List.mem_cons.mp hd with hd1 | hd2
      · rw [← hd1]
        simp [receiverIdsOfDecls, hr]
      · have hmem := ih hd2
        cases d with
        | gen es => simpa [receiverIdsOfDecls] using hmem
        | func nm2 recv2 pt2 bd2 =>
            cases recv2 with
            | none => simpa [receiverIdsOfDecls] using hmem
            | some r2 =>
                cases h2 : recvBaseIdent r2 with
                | none => simpa [receiverIdsOfDecls, h2] using hmem
                | some j => simp [receiverIdsOfDecls, h2]; right; exact hmem

theorem mem_receiverIds (pkg : Pkg) (f : File) (hf : f ∈ pkg.files)
    (nm : Ident) (r : Expr) (pt bd : List Expr) (i : Ident)
    (hd : Decl.func nm (some r) pt bd ∈ f.decls) (hr : recvBaseIdent r = some i) :
    i.id ∈ receiverIds pkg := by
  unfold receiverIds
  rw [List.mem_flatten]
  exact ⟨fileReceiverIds f, List.mem_map.mpr ⟨f, hf, rfl⟩,
    mem_receiverIdsOfDecls f.decls nm r pt bd i hd hr⟩

theorem effectiveUsed_receiver (pkg : Pkg) (target nid : Nat)
    (h : nid ∈ receiverIds pkg) :
    effectiveUsed pkg true target nid = false := by
  simp [effectiveUsed, h]

/-! ### Helper lemmas about per-file processing -/

theorem processFile_ok_resolves (params : Parameters) (toPkg : PkgRef)
    (fl tl : Bool) (used : Nat → Bool) (f : File) (o : Option FileOut)
    (h : processFile params toPkg fl tl used f = .ok o) :
    ∃ s, resolveToPkgName params toPkg f = .ok s := by
  unfold processFile at h
  cases ha : resolveToPkgName params toPkg f with
  | error e => rw [ha] at h; cases h
  | ok s => exact ⟨s, rfl⟩

theorem processFile_ok_parts (params : Parameters) (toPkg : PkgRef)
    (fl tl : Bool) (used : Nat → Bool) (f : File) (s : String) (out : FileOut)
    (ha : resolveToPkgName params toPkg f = .ok s)
    (h : processFile params toPkg fl tl used f = .ok (some out)) :
    out.fname = f.fname
    ∧ out.decls = f.decls.map (rewriteDecl (nodeFilter fl used) (replNode tl s params.toName))
    ∧ out.added = (if tl then none
        else if s ≠ toPkg.name then some (some s, params.toPkgPath)
        else some (none, params.toPkgPath)) := by
  unfold processFile at h
  rw [ha] at h
  by_cases hu : f.decls.any (declHasMatch (nodeFilter fl used)) = true
  · simp only [hu, if_true] at h
    cases h
    exact ⟨rfl, rfl, rfl⟩
  · simp only [Bool.not_eq_true] at hu
    simp only [hu, Bool.false_eq_true, if_false] at h
    cases h

theorem processFile_ok_of_resolve (params : Parameters) (toPkg : PkgRef)
    (fl tl : Bool) (used : Nat → Bool) (f : File) (s : String)
    (ha : resolveToPkgName params toPkg f = .ok s) :
    ∃ o, processFile params toPkg fl tl used f = .ok o := by
  cases hp : processFile params toPkg fl tl used f with
  | ok o => exact ⟨o, rfl⟩
  | error e =>
      unfold processFile at hp
      rw [ha] at hp
      by_cases hu : f.decls.any (declHasMatch (nodeFilter fl used)) = true
      · simp only [hu, if_true] at hp
        cases hp
      · simp only [Bool.not_eq_true] at hu
        simp only [hu, Bool.false_eq_true, if_false] at hp
        cases hp

theorem processFile_error_of_resolve (params : Parameters) (toPkg : PkgRef)
    (fl tl : Bool) (used : Nat → Bool) (f : File) (e : ProcError)
    (ha : resolveToPkgName params toPkg f = .error e) :
    processFile params toPkg fl tl used f = .error e := by
  unfold processFile
  rw [ha]

theorem resolveToPkgName_conflict (params : Parameters) (toPkg : PkgRef) (f : File)
    (p : String)
    (hconf : mapGet (invert (buildImportPathMap f)) toPkg.name = some p)
    (hne : p ≠ toPkg.pkgPath) (hov : params.toPkgName = "") :
    resolveToPkgName params toPkg f = .error (.conflict f.fname toPkg.name) := by
  unfold resolveToPkgName
  rw [hconf]
  simp [hne, hov]

theorem resolveToPkgName_override (params : Parameters) (toPkg : PkgRef) (f : File)
    (p : String)
    (hconf : mapGet (invert (buildImportPathMap f)) toPkg.name = some p)
    (hne : p ≠ toPkg.pkgPath) (hov : params.toPkgName ≠ "") :
    resolveToPkgName params toPkg f = .ok params.toPkgName := by
  unfold resolveToPkgName
  rw [hconf]
  simp [hne, hov]

theorem resolveToPkgName_ok_of_override (params : Parameters) (toPkg : PkgRef)
    (f : File) (hov : params.toPkgName ≠ "") :
    ∃ s, resolveToPkgName params toPkg f = .ok s := by
  unfold resolveToPkgName
  cases mapGet (invert (buildImportPathMap f)) toPkg.name with
  | none => exact ⟨toPkg.name, rfl⟩
  | some p =>
      by_cases hp : p ≠ toPkg.pkgPath
      · simp [hp, hov]
      · simp [hp]

/-! ### Helper lemmas about the file and package loops -/

theorem processFiles_snd_none (params : Parameters) (toPkg : PkgRef)
    (fl tl : Bool) (used : Nat → Bool) (fs : List File)
    (h : ∀ f ∈ fs, ∃ o, processFile params toPkg fl tl used f = .ok o) :
    (processFiles params toPkg fl tl used fs).2 = none := by
  induction fs with
  | nil => rfl
  | cons f rest ih =>
      obtain ⟨o, ho⟩ := h f (List.mem_cons_self f rest)
      have htail := ih (fun g hg => h g (List.mem_cons_of_mem f hg))
      cases o with
      | none => simpa [processFiles, ho] using htail
      | some x => simpa [processFiles, ho] using htail

theorem processFiles_append_error (params : Parameters) (toPkg : PkgRef)
    (fl tl : Bool) (used : Nat → Bool) (pre : List File) (f : File)
    (post : List File) (e : ProcError)
    (hpre : ∀ g ∈ pre, ∃ o, processFile params toPkg fl tl used g = .ok o)
    (hf : processFile params toPkg fl tl used f = .error e) :
    (processFiles params toPkg fl tl used (pre ++ f :: post)).2 = some e := by
  induction pre with
  | nil => simp [processFiles, hf]
  | cons g pre ih =>
      obtain ⟨o, ho⟩ := hpre g (List.mem_cons_self g pre)
      have htail := ih (fun g2 hg2 => hpre g2 (List.mem_cons_of_mem g hg2))
      cases o with
      | none => simpa [processFiles, ho] using htail
      | some x => simpa [processFiles, ho] using htail

theorem processFiles_fst_nil (params : Parameters) (toPkg : PkgRef)
    (fl tl : Bool) (used : Nat → Bool) (fs : List File)
    (h : ∀ f ∈ fs, processFile params toPkg fl tl used f = .ok none ∨
         ∃ e, processFile params toPkg fl tl used f = .error e) :
    (processFiles params toPkg fl tl used fs).1 = [] := by
  induction fs with
  | nil => rfl
  | cons f rest ih =>
      have htail := ih (fun g hg => h g (List.mem_cons_of_mem f hg))
      rcases h f (List.mem_cons_self f rest) with ho | ⟨e, he⟩
      · simpa [processFiles, ho] using htail
      · simp [processFiles, he]

theorem processPackage_eq_of_resolve (pkg : Pkg) (params : Parameters)
    (toPkg : PkgRef) (target : Nat)
    (h : resolveTargetObj pkg params = .ok (some target)) :
    processPackage pkg params toPkg =
      processFiles params toPkg (decide (pkg.pkgPath = params.fromPkgPath))
        (decide (pkg.pkgPath = params.toPkgPath))
        (effectiveUsed pkg (decide (pkg.pkgPath = params.fromPkgPath)) target)
        pkg.files := by
  unfold processPackage
  rw [h]

theorem resolveTargetObj_fromLocal (pkg : Pkg) (params : Parameters) (target : Nat)
    (hfl : pkg.pkgPath = params.fromPkgPath)
    (hs : scopeLookup pkg.scope params.fromName = some target) :
    resolveTargetObj pkg params = .ok (some target) := by
  unfold resolveTargetObj
  simp [hfl, hs]

theorem resolveTargetObj_remote (pkg : Pkg) (params : Parameters) (target : Nat)
    (sc : List (String × Nat))
    (hnl : pkg.pkgPath ≠ params.fromPkgPath)
    (hsc : findImportScope pkg.imports params.fromPkgPath = some sc)
    (hs : scopeLookup sc params.fromName = some target) :
    resolveTargetObj pkg params = .ok (some target) := by
  unfold resolveTargetObj
  simp [hnl, hsc, hs]

/-! ### Claim C1 -/

/-- Claim C1: for a source unit of the from package (module-local target), an
identifier standing as the receiver type of a method declaration (through at
most one pointer star) is never replaced by the rewrite, regardless of whether
the destination is local or remote: processPackage reduces to the file loop
over the receiver-pruned use set, and any emitted file keeps the receiver
expression unchanged. -/
theorem claimC1_receiver_exclusion
    (pkg : Pkg) (params : Parameters) (toPkg : PkgRef) (target : Nat)
    (tl : Bool) (f : File) (out : FileOut)
    (hfl : pkg.pkgPath = params.fromPkgPath)
    (hres : scopeLookup pkg.scope params.fromName = some target)
    (hf : f ∈ pkg.files)
    (hout : processFile params toPkg true tl (effectiveUsed pkg true target) f
      = .ok (some out))
    (j : Nat) (nm : Ident) (r : Expr) (pt bd : List Expr) (i : Ident)
    (hdecl : f.decls[j]? = some (.func nm (some r) pt bd))
    (hrecv : recvBaseIdent r = some i) :
    processPackage pkg params toPkg
      = processFiles params toPkg true (decide (pkg.pkgPath = params.toPkgPath))
          (effectiveUsed pkg true target) pkg.files
    ∧ ∃ pt2 bd2, out.decls[j]? = some (.func nm (some r) pt2 bd2) := by
  constructor
  · have h1 := processPackage_eq_of_resolve pkg params toPkg target
      (resolveTargetObj_fromLocal pkg params target hfl hres)
    rw [h1]
    simp [hfl]
  · obtain ⟨s, hs⟩ := processFile_ok_resolves _ _ _ _ _ _ _ hout
    obtain ⟨hfn, hdecls, hadd⟩ := processFile_ok_parts _ _ _ _ _ _ _ _ hs hout
    have hmem : Decl.func nm (some r) pt bd ∈ f.decls := by
      have := List.getElem?_eq_some.mp hdecl
      exact this.2 ▸ List.getElem_mem this.1
    have hid : i.id ∈ receiverIds pkg := mem_receiverIds pkg f hf nm r pt bd i hmem hrecv
    have hfu : nodeFilter true (effectiveUsed pkg true target) (.ident i) = false := by
      simp [nodeFilter, effectiveUsed_receiver pkg target i.id hid]
    have hrw : rewriteExpr (nodeFilter true (effectiveUsed pkg true target))
        (replNode tl s params.toName) r = r :=
      rewriteExpr_recv _ _ _ _ _ hrecv hfu
    refine ⟨pt.map (rewriteExpr (nodeFilter true (effectiveUsed pkg true target))
        (replNode tl s params.toName)),
      bd.map (rewriteExpr (nodeFilter true (effectiveUsed pkg true target))
        (replNode tl s params.toName)), ?_⟩
    rw [hdecls, List.getElem?_map, hdecl]
    simp [rewriteDecl, hrw]

/-- Witness for claim C1 at a concrete package: T1 is used both as the
starred receiver of Method1 and in a variable declaration; the emitted
file keeps the receiver while the other use was rewritten. -/
theorem claimC1_witness :
    processFile exParamsC1 exToPkgC1 true false (effectiveUsed exPkgC1 true 5) exFileC1
      = .ok (some exOutC1)
    ∧ ∃ pt2 bd2, exOutC1.decls[0]?
        = some (.func ⟨20, "Method1"⟩ (some (.star (.ident ⟨1, "T1"⟩))) pt2 bd2) :=
  ⟨by rfl,
   (claimC1_receiver_exclusion exPkgC1 exParamsC1 exToPkgC1 5 false exFileC1 exOutC1
      rfl rfl (by decide) (by rfl) 0 ⟨20, "Method1"⟩ (.star (.ident ⟨1, "T1"⟩)) [] []
      ⟨1, "T1"⟩ (by decide) rfl).2⟩

/-! ### Claim C2 -/

theorem childAt_rewrite (filt : Expr → Bool) (repl e : Expr) (st : Step) (c : Expr)
    (hf : filt e = false) (hc : childAt e st = some c) :
    childAt (rewriteExpr filt repl e) st = some (rewriteExpr filt repl c) := by
  cases e <;> cases st <;> simp_all [childAt, rewriteExpr]

theorem subtreeAt_cons (e : Expr) (st : Step) (p : List Step) (c : Expr)
    (hc : childAt e st = some c) :
    subtreeAt e (st :: p) = subtreeAt c p := by
  simp [subtreeAt, hc]

theorem noEarlierMatch_head (filt : Expr → Bool) (e : Expr) (st : Step) (p : List Step)
    (h : noEarlierMatch filt e (st :: p) = true) :
    filt e = false := by
  have h1 := (List.all_eq_true.mp h) [] (by simp [properPrefixes])
  simpa [prefixOk, subtreeAt] using h1

theorem noEarlierMatch_tail (filt : Expr → Bool) (e : Expr) (st : Step) (p : List Step)
    (c : Expr) (hc : childAt e st = some c)
    (h : noEarlierMatch filt e (st :: p) = true) :
    noEarlierMatch filt c p = true := by
  refine List.all_eq_true.mpr (fun q hq => ?_)
  have hmem : (st :: q) ∈ properPrefixes (st :: p) := by
    show (st :: q) ∈ ([] :: (properPrefixes p).map (st :: ·))
    exact List.mem_cons_of_mem _ (List.mem_map.mpr ⟨q, hq, rfl⟩)
  have := (List.all_eq_true.mp h) (st :: q) hmem
  simpa [subtreeAt_cons e st q c hc] using this

theorem subtreeAt_rewrite (filt : Expr → Bool) (repl : Expr) :
    ∀ (p : List Step) (e s : Expr),
      subtreeAt e p = some s → filt s = true → noEarlierMatch filt e p = true →
      subtreeAt (rewriteExpr filt repl e) p = some repl
  | [], e, s, hs, hf, _ => by
      have he : e = s := by simpa [subtreeAt] using hs
      subst he
      simp [subtreeAt, rewriteExpr_of_filt filt repl e hf]
  | st :: p, e, s, hs, hf, hnem => by
      cases hc : childAt e st with
      | none => simp [subtreeAt, hc] at hs
      | some c =>
          have hs2 : subtreeAt c p = some s := by simpa [subtreeAt, hc] using hs
          have h0 : filt e = false := noEarlierMatch_head filt e st p hnem
          have hn2 : noEarlierMatch filt c p = true :=
            noEarlierMatch_tail filt e st p c hc hnem
          rw [subtreeAt_cons _ st p _ (childAt_rewrite filt repl e st c h0 hc)]
          exact subtreeAt_rewrite filt repl p c s hs2 hf hn2

/-- Claim C2: a successfully processed file is rewritten by structural
substitution with a single replacement node: a bare identifier named toName
when the destination is the module being processed, else a selector whose
qualifier is the display alias resolved for the destination in this file and
whose member is toName; every classified position (a matched node with no
matched strict ancestor) holds exactly the replacement node afterwards. -/
theorem claimC2_replacement_shape
    (params : Parameters) (toPkg : PkgRef) (fl tl : Bool) (used : Nat → Bool)
    (f : File) (s : String) (out : FileOut)
    (ha : resolveToPkgName params toPkg f = .ok s)
    (hout : processFile params toPkg fl tl used f = .ok (some out)) :
    out.decls = f.decls.map
      (rewriteDecl (nodeFilter fl used) (replNode tl s params.toName))
    ∧ replNode true s params.toName = .ident ⟨0, params.toName⟩
    ∧ replNode false s params.toName = .selector (.ident ⟨0, s⟩) ⟨0, params.toName⟩
    ∧ ∀ (e : Expr) (p : List Step) (t : Expr),
        subtreeAt e p = some t → nodeFilter fl used t = true →
        noEarlierMatch (nodeFilter fl used) e p = true →
        subtreeAt (rewriteExpr (nodeFilter fl used) (replNode tl s params.toName) e) p
          = some (replNode tl s params.toName) :=
  ⟨(processFile_ok_parts params toPkg fl tl used f s out ha hout).2.1,
   rfl, rfl,
   fun e p t hs hf hn => subtreeAt_rewrite (nodeFilter fl used)
     (replNode tl s params.toName) p e t hs hf hn⟩

/-- Witness for claim C2 at a concrete file: a parenthesised qualified
reference pkg2.T2 is replaced by the selector pkg3.T3 at its exact
position. -/
theorem claimC2_witness :
    resolveToPkgName exParamsC2 exToPkgC2 exFileC2 = .ok "pkg3"
    ∧ processFile exParamsC2 exToPkgC2 false false (fun i => i == 10) exFileC2
        = .ok (some exOutC2)
    ∧ subtreeAt (rewriteExpr (nodeFilter false (fun i => i == 10))
        (replNode false "pkg3" "T3")
        (.paren (.selector (.ident ⟨9, "pkg2"⟩) ⟨10, "T2"⟩))) [Step.parenX]
        = some (replNode false "pkg3" "T3") :=
  ⟨by rfl, by rfl,
   (claimC2_replacement_shape exParamsC2 exToPkgC2 false false (fun i => i == 10)
      exFileC2 "pkg3" exOutC2 (by rfl) (by rfl)).2.2.2
     (.paren (.selector (.ident ⟨9, "pkg2"⟩) ⟨10, "T2"⟩)) [Step.parenX]
     (.selector (.ident ⟨9, "pkg2"⟩) ⟨10, "T2"⟩) (by decide) (by decide) (by decide)⟩

/-! ### Claim C3 -/

/-- Claim C3: a processed module's source unit whose import table binds the
destination package's default name to a different path makes the run fail
with the conflict error naming the file and the colliding package name when
no -to-pkg-name override is supplied; with an override the run does not
fail, the alias resolved for the unit is the override, and a unit emitted
with a remote destination carries the override-qualified replacement and a
named import of the destination path under the override. -/
theorem claimC3_alias_conflict
    (pkg : Pkg) (params : Parameters) (toPkg : PkgRef) (target : Nat)
    (pre post : List File) (f : File) (p : String)
    (hres : resolveTargetObj pkg params = .ok (some target))
    (hsplit : pkg.files = pre ++ f :: post)
    (hpre : ∀ g ∈ pre, ∃ s, resolveToPkgName params toPkg g = .ok s)
    (hconf : mapGet (invert (buildImportPathMap f)) toPkg.name = some p)
    (hne : p ≠ toPkg.pkgPath) :
    (params.toPkgName = "" →
      (processPackage pkg params toPkg).2 = some (.conflict f.fname toPkg.name))
    ∧ (params.toPkgName ≠ "" →
        resolveToPkgName params toPkg f = .ok params.toPkgName
        ∧ (processPackage pkg params toPkg).2 = none
        ∧ ∀ (fl : Bool) (used : Nat → Bool) (out : FileOut),
            processFile params toPkg fl false used f = .ok (some out) →
            params.toPkgName ≠ toPkg.name →
            out.decls = f.decls.map (rewriteDecl (nodeFilter fl used)
              (.selector (.ident ⟨0, params.toPkgName⟩) ⟨0, params.toName⟩))
            ∧ out.added = some (some params.toPkgName, params.toPkgPath)) := by
  constructor
  · intro hov
    rw [processPackage_eq_of_resolve pkg params toPkg target hres, hsplit]
    exact processFiles_append_error _ _ _ _ _ pre f post _
      (fun g hg => (hpre g hg).elim
        (fun s hs => processFile_ok_of_resolve _ _ _ _ _ g s hs))
      (processFile_error_of_resolve _ _ _ _ _ f _
        (resolveToPkgName_conflict params toPkg f p hconf hne hov))
  · intro hov
    have hfok : resolveToPkgName params toPkg f = .ok params.toPkgName :=
      resolveToPkgName_override params toPkg f p hconf hne hov
    refine ⟨hfok, ?_, ?_⟩
    · rw [processPackage_eq_of_resolve pkg params toPkg target hres]
      exact processFiles_snd_none _ _ _ _ _ _
        (fun g hg => (resolveToPkgName_ok_of_override params toPkg g hov).elim
          (fun s hs => processFile_ok_of_resolve _ _ _ _ _ g s hs))
    · intro fl used out hout hne2
      obtain ⟨hfn, hdecls, hadd⟩ := processFile_ok_parts params toPkg fl false used f
        params.toPkgName out hfok hout
      constructor
      · simpa [replNode] using hdecls
      · rw [hadd]; simp [hne2]

/-- Witness for claim C3 at a concrete unit importing an unrelated x/pkg3
under the destination name pkg3 while -to-pkg-name pkg3x is supplied. -/
theorem claimC3_witness :
    (processPackage exPkgC3 exParamsC3 exToPkgC3).2 = none
    ∧ resolveToPkgName exParamsC3 exToPkgC3 exFileC3 = .ok "pkg3x"
    ∧ exOutC3.decls = exFileC3.decls.map (rewriteDecl (nodeFilter false (fun i => i == 10))
        (.selector (.ident ⟨0, "pkg3x"⟩) ⟨0, "T3"⟩))
    ∧ exOutC3.added = some (some "pkg3x", "a/pkg3") := by
  have h := claimC3_alias_conflict exPkgC3 exParamsC3 exToPkgC3 5 [] [] exFileC3 "x/pkg3"
    (by rfl) rfl (by intro g hg; cases hg) (by rfl) (by decide)
  have h2 := h.2 (by decide)
  have h3 := h2.2.2 false (fun i => i == 10) exOutC3 (by rfl) (by decide)
  exact ⟨h2.2.1, h2.1, h3.1, h3.2⟩

/-! ### Claim C4 -/

/-- Counterexample to claim C4: a module that imports the from package
whose exported scope lacks the requested name makes the run error with
not-found-in-package, while the claim asserts the run does not error and
falls through to heuristic name-based matching (no such fallback exists
in the program). -/
theorem claimC4_counterexample :
    findImportScope exPkgC4.imports "a/pkg2" = some [("T2", 5)]
    ∧ processPackage exPkgC4 exParamsC4 exToPkgC4
        = ([], some (.notFoundInPackage "T9" "a/pkg2")) := ⟨rfl, rfl⟩

/-- Claim C4 amended: when the module being processed imports the from
package but from.name does not resolve in that package's exported scope,
processPackage fails with the not-found-in-package error naming the symbol
and the package; there is no heuristic fallback. -/
theorem claimC4_amended (pkg : Pkg) (params : Parameters) (toPkg : PkgRef)
    (sc : List (String × Nat))
    (hnl : pkg.pkgPath ≠ params.fromPkgPath)
    (hsc : findImportScope pkg.imports params.fromPkgPath = some sc)
    (hlk : scopeLookup sc params.fromName = none) :
    processPackage pkg params toPkg
      = ([], some (.notFoundInPackage params.fromName params.fromPkgPath)) := by
  unfold processPackage resolveTargetObj
  simp [hnl, hsc, hlk]

/-- Witness for the amended claim C4 at the concrete module. -/
theorem claimC4_witness :
    exPkgC4.pkgPath ≠ exParamsC4.fromPkgPath
    ∧ processPackage exPkgC4 exParamsC4 exToPkgC4
        = ([], some (.notFoundInPackage "T9" "a/pkg2")) :=
  ⟨by decide,
   claimC4_amended exPkgC4 exParamsC4 exToPkgC4 [("T2", 5)] (by decide) rfl rfl⟩

/-! ### Claim C5 -/

/-- Counterexample to claim C5: a package with an empty use table (no
reference to the target at all) and a local destination still fails with
the alias-conflict error, because the conflict check runs per file before
any substitution and without regard to the destination's locality. -/
theorem claimC5_counterexample :
    exPkgC5.uses = []
    ∧ exParamsC5.toPkgPath = exPkgC5.pkgPath
    ∧ processPackage exPkgC5 exParamsC5 exToPkgC5
        = ([], some (.conflict "b.go" "b")) := ⟨rfl, rfl, rfl⟩

/-- Claim C5 amended: alias-conflict detection runs for every source unit
of a module in which the target resolves, before substitution: a unit
whose import table binds the destination package's name to a different
path fails the run (absent an override) for every matching mode, every
destination locality and every use set, hence also when the unit contains
no reference to the target. -/
theorem claimC5_amended
    (pkg : Pkg) (params : Parameters) (toPkg : PkgRef) (target : Nat)
    (pre post : List File) (f : File) (p : String)
    (hres : resolveTargetObj pkg params = .ok (some target))
    (hsplit : pkg.files = pre ++ f :: post)
    (hpre : ∀ g ∈ pre, ∃ s, resolveToPkgName params toPkg g = .ok s)
    (hconf : mapGet (invert (buildImportPathMap f)) toPkg.name = some p)
    (hne : p ≠ toPkg.pkgPath)
    (hov : params.toPkgName = "") :
    (∀ (fl tl : Bool) (used : Nat → Bool),
       processFile params toPkg fl tl used f = .error (.conflict f.fname toPkg.name))
    ∧ (processPackage pkg params toPkg).2 = some (.conflict f.fname toPkg.name) := by
  have herr := resolveToPkgName_conflict params toPkg f p hconf hne hov
  refine ⟨fun fl tl used => processFile_error_of_resolve _ _ fl tl used f _ herr, ?_⟩
  rw [processPackage_eq_of_resolve pkg params toPkg target hres, hsplit]
  exact processFiles_append_error _ _ _ _ _ pre f post _
    (fun g hg => (hpre g hg).elim
      (fun s hs => processFile_ok_of_resolve _ _ _ _ _ g s hs))
    (processFile_error_of_resolve _ _ _ _ _ f _ herr)

/-- Witness for the amended claim C5 at the concrete no-reference unit. -/
theorem claimC5_witness :
    (∀ (fl tl : Bool) (used : Nat → Bool),
       processFile exParamsC5 exToPkgC5 fl tl used exFileC5
         = .error (.conflict "b.go" "b"))
    ∧ (processPackage exPkgC5 exParamsC5 exToPkgC5).2 = some (.conflict "b.go" "b") :=
  claimC5_amended exPkgC5 exParamsC5 exToPkgC5 5 [] [] exFileC5 "x/b"
    (by rfl) rfl (by intro g hg; cases hg) (by rfl) (by decide) rfl

/-! ### Claim C6 -/

theorem usedIdentSet_false (pkg : Pkg) (t nid : Nat)
    (h : pkg.uses.all (fun u => !(u.2 == t)) = true) :
    usedIdentSet pkg t nid = false := by
  unfold usedIdentSet
  cases hany : pkg.uses.any (fun u => u.1 == nid && u.2 == t) with
  | false => rfl
  | true =>
      obtain ⟨u, hu, hpu⟩ := List.any_eq_true.mp hany
      have h2 := List.all_eq_true.mp h u hu
      rw [Bool.and_eq_true] at hpu
      rw [hpu.2] at h2
      cases h2

theorem effectiveUsed_false (pkg : Pkg) (fl : Bool) (t : Nat)
    (h : pkg.uses.all (fun u => !(u.2 == t)) = true) (nid : Nat) :
    effectiveUsed pkg fl t nid = false := by
  cases fl with
  | false => simpa [effectiveUsed] using usedIdentSet_false pkg t nid h
  | true => simp [effectiveUsed, usedIdentSet_false pkg t nid h]

theorem nodeFilter_false_of_unused (fl : Bool) (used : Nat → Bool)
    (h : ∀ nid, used nid = false) (e : Expr) :
    nodeFilter fl used e = false := by
  cases e <;> simp [nodeFilter, h]

theorem exprHasMatch_false (filt : Expr → Bool) (h : ∀ e2, filt e2 = false) :
    ∀ e, exprHasMatch filt e = false := by
  intro e
  induction e with
  | ident i => simp [exprHasMatch, h]
  | selector x s ih => simp [exprHasMatch, h, ih]
  | star x ih => simp [exprHasMatch, h, ih]
  | paren x ih => simp [exprHasMatch, h, ih]
  | call fn a ih1 ih2 => simp [exprHasMatch, h, ih1, ih2]

theorem declsAny_false (filt : Expr → Bool) (h : ∀ e2, filt e2 = false)
    (ds : List Decl) : ds.any (declHasMatch filt) = false := by
  rw [List.any_eq_false]
  intro d hd
  unfold declHasMatch
  rw [Bool.not_eq_true, List.any_eq_false]
  intro e he
  rw [exprHasMatch_false filt h e]
  simp

theorem processFile_noMatch (params : Parameters) (toPkg : PkgRef)
    (fl tl : Bool) (used : Nat → Bool) (f : File)
    (hu : f.decls.any (declHasMatch (nodeFilter fl used)) = false) :
    processFile params toPkg fl tl used f = .ok none ∨
      ∃ e, processFile params toPkg fl tl used f = .error e := by
  cases ha : resolveToPkgName params toPkg f with
  | error e => exact Or.inr ⟨e, processFile_error_of_resolve _ _ _ _ _ _ _ ha⟩
  | ok s =>
      left
      unfold processFile
      rw [ha]
      simp only [hu, Bool.false_eq_true, if_false]

theorem processPackage_fst_nil_of_noTargetUse (pkg : Pkg) (params : Parameters)
    (toPkg : PkgRef) (h : noTargetUse pkg params = true) :
    (processPackage pkg params toPkg).1 = [] := by
  unfold processPackage
  cases hres : resolveTargetObj pkg params with
  | error e => rfl
  | ok o =>
      cases o with
      | none => rfl
      | some t =>
          have hall : pkg.uses.all (fun u => !(u.2 == t)) = true := by
            unfold noTargetUse at h
            rw [hres] at h
            exact h
          apply processFiles_fst_nil
          intro f hf
          exact processFile_noMatch _ _ _ _ _ f
            (declsAny_false _ (nodeFilter_false_of_unused _ _
              (effectiveUsed_false pkg _ t hall)) f.decls)

theorem processSorted_fst_nil (params : Parameters) (toPkg : PkgRef)
    (l : List Pkg) (h : ∀ p ∈ l, (processPackage p params toPkg).1 = []) :
    (processSorted params toPkg l).1 = [] := by
  induction l with
  | nil => rfl
  | cons p rest ih =>
      have hp := h p (List.mem_cons_self p rest)
      have htail := ih (fun q hq => h q (List.mem_cons_of_mem p hq))
      cases herr : (processPackage p params toPkg).2 with
      | some e => simp [processSorted, herr, hp]
      | none => simp [processSorted, herr, hp, htail]

/-- Claim C6: a source unit in which no substitution occurs is not
re-emitted; a module that neither is the from module nor imports the from
module's path is skipped without error; and a whole run over packages
containing no use-table reference to the target emits zero modified
units. -/
theorem claimC6_frame
    : (∀ (params : Parameters) (toPkg : PkgRef) (fl tl : Bool) (used : Nat → Bool)
         (f : File) (o : Option FileOut),
         processFile params toPkg fl tl used f = .ok o →
         f.decls.any (declHasMatch (nodeFilter fl used)) = false → o = none)
    ∧ (∀ (pkg : Pkg) (params : Parameters) (toPkg : PkgRef),
        pkg.pkgPath ≠ params.fromPkgPath →
        findImportScope pkg.imports params.fromPkgPath = none →
        processPackage pkg params toPkg = ([], none))
    ∧ (∀ (params : Parameters) (toPkg : PkgRef) (pkgs : List Pkg),
        (∀ pkg ∈ pkgs, noTargetUse pkg params = true) →
        (process params toPkg pkgs).1 = []) := by
  refine ⟨?_, ?_, ?_⟩
  · intro params toPkg fl tl used f o hok hu
    unfold processFile at hok
    cases ha : resolveToPkgName params toPkg f with
    | error e => rw [ha] at hok; cases hok
    | ok s =>
        rw [ha] at hok
        simp only [hu, Bool.false_eq_true, if_false] at hok
        cases hok
        rfl
  · intro pkg params toPkg hnl hsc
    unfold processPackage resolveTargetObj
    simp [hnl, hsc]
  · intro params toPkg pkgs h
    unfold process
    apply processSorted_fst_nil
    intro p hp
    exact processPackage_fst_nil_of_noTargetUse p params toPkg
      (h p ((List.perm_insertionSort _ pkgs).mem_iff.mp hp))

/-- Witness for claim C6: a unit using only an unrelated symbol of the
from package is not re-emitted, a package not importing the from package
is skipped, and the two-package project emits zero units. -/
theorem claimC6_witness :
    processFile exParamsC6 exToPkgC6 false false (effectiveUsed exPkgC6 false 5) exFileC6
      = .ok none
    ∧ processPackage exPkgC6Skip exParamsC6 exToPkgC6 = ([], none)
    ∧ (process exParamsC6 exToPkgC6 [exPkgC6, exPkgC6Skip]).1 = [] :=
  ⟨by rfl,
   claimC6_frame.2.1 exPkgC6Skip exParamsC6 exToPkgC6 (by decide) rfl,
   claimC6_frame.2.2 exParamsC6 exToPkgC6 [exPkgC6, exPkgC6Skip] (by decide)⟩

/-! ### Claim C7 -/

/-- Counterexample to claim C7: with to equal to from, a unit that refers
to the module under the custom alias p2 is rewritten to use the package
name pkg2 as qualifier, so a qualified reference does not keep its input
qualifier and the output text differs from the input. -/
theorem claimC7_counterexample :
    exParamsC7.toPkgPath = exParamsC7.fromPkgPath
    ∧ exParamsC7.toName = exParamsC7.fromName
    ∧ processPackage exPkgC7 exParamsC7 exToPkgC7 =
        ([⟨"b.go", [.gen [.selector (.ident ⟨0, "pkg2"⟩) ⟨0, "T2"⟩]],
          some (none, "a/pkg2")⟩], none)
    ∧ renderDecl (.gen [.selector (.ident ⟨9, "p2"⟩) ⟨10, "T2"⟩]) = ["p2.T2"]
    ∧ renderDecl (.gen [.selector (.ident ⟨0, "pkg2"⟩) ⟨0, "T2"⟩]) = ["pkg2.T2"]
    ∧ ("p2.T2" : String) ≠ "pkg2.T2" :=
  ⟨rfl, rfl, rfl, rfl, rfl, by decide⟩

theorem declSlots_rewriteDecl (filt : Expr → Bool) (repl : Expr) (d : Decl) :
    declSlots (rewriteDecl filt repl d) = (declSlots d).map (rewriteExpr filt repl) := by
  cases d with
  | func nm recv pt bd => cases recv <;> simp [declSlots, rewriteDecl]
  | gen es => simp [declSlots, rewriteDecl]

theorem exprSubsels_shape : ∀ (e se : Expr), se ∈ exprSubsels e →
    ∃ x s, se = .selector x s := by
  intro e
  induction e with
  | ident i => intro se h; simp [exprSubsels] at h
  | selector x s ihx =>
      intro se h
      rcases List.mem_cons.mp h with h1 | h2
      · exact ⟨x, s, h1⟩
      · exact ihx se h2
  | star x ihx => intro se h; exact ihx se (by simpa [exprSubsels] using h)
  | paren x ihx => intro se h; exact ihx se (by simpa [exprSubsels] using h)
  | call fn a ihf iha =>
      intro se h
      rcases List.mem_append.mp (by simpa [exprSubsels] using h) with h1 | h2
      · exact ihf se h1
      · exact iha se h2

theorem render_rewrite_preserved (fl : Bool) (used : Nat → Bool) (repl : Expr) :
    ∀ e : Expr,
      (∀ i ∈ exprIdents e, nodeFilter fl used (.ident i) = true → i.name = render repl) →
      (∀ se ∈ exprSubsels e, nodeFilter fl used se = true → render se = render repl) →
      render (rewriteExpr (nodeFilter fl used) repl e) = render e := by
  intro e
  induction e with
  | ident i =>
      intro h1 h2
      by_cases hf : nodeFilter fl used (.ident i) = true
      · rw [rewriteExpr_of_filt _ _ _ hf]
        exact (h1 i (by simp [exprIdents]) hf).symm
      · simp only [Bool.not_eq_true] at hf
        simp [rewriteExpr, hf]
  | selector x s ihx =>
      intro h1 h2
      by_cases hf : nodeFilter fl used (.selector x s) = true
      · rw [rewriteExpr_of_filt _ _ _ hf]
        exact (h2 (.selector x s) (by simp [exprSubsels]) hf).symm
      · simp only [Bool.not_eq_true] at hf
        have hx := ihx
          (fun i hi hm => h1 i (by simp only [exprIdents, List.mem_append]; exact Or.inl hi) hm)
          (fun se hse hm => h2 se (List.mem_cons_of_mem _ hse) hm)
        by_cases hs : nodeFilter fl used (.ident s) = true
        · have hname : s.name = render repl :=
            h1 s (by simp [exprIdents]) hs
          cases repl with
          | ident j => simp [rewriteExpr, hf, hs, replaceSel, render, hx, hname]
          | selector a b => simp [rewriteExpr, hf, hs, replaceSel, render, hx]
          | star a => simp [rewriteExpr, hf, hs, replaceSel, render, hx]
          | paren a => simp [rewriteExpr, hf, hs, replaceSel, render, hx]
          | call a b => simp [rewriteExpr, hf, hs, replaceSel, render, hx]
        · simp only [Bool.not_eq_true] at hs
          simp [rewriteExpr, hf, hs, render, hx]
  | star x ihx =>
      intro h1 h2
      have hx := ihx (fun i hi hm => h1 i (by simpa [exprIdents] using hi) hm)
        (fun se hse hm => h2 se (by simpa [exprSubsels] using hse) hm)
      simp only [rewriteExpr, nodeFilter_star, Bool.false_eq_true, if_false, render, hx]
  | paren x ihx =>
      intro h1 h2
      have hx := ihx (fun i hi hm => h1 i (by simpa [exprIdents] using hi) hm)
        (fun se hse hm => h2 se (by simpa [exprSubsels] using hse) hm)
      simp only [rewriteExpr, nodeFilter_paren, Bool.false_eq_true, if_false, render, hx]
  | call fn a ihf iha =>
      intro h1 h2
      have hf2 := ihf
        (fun i hi hm => h1 i (by simp only [exprIdents, List.mem_append]; exact Or.inl hi) hm)
        (fun se hse hm => h2 se (by simp only [exprSubsels, List.mem_append]; exact Or.inl hse) hm)
      have ha2 := iha
        (fun i hi hm => h1 i (by simp only [exprIdents, List.mem_append]; exact Or.inr hi) hm)
        (fun se hse hm => h2 se (by simp only [exprSubsels, List.mem_append]; exact Or.inr hse) hm)
      simp only [rewriteExpr, nodeFilter_call, Bool.false_eq_true, if_false, render, hf2, ha2]

/-- Claim C7 amended: with to equal to from, the output of a touched unit
renders identically to the input provided the unit refers to the target by
its own name for bare uses and through the destination module's default
package name for qualified uses (the alias resolved for the unit being
that default); a unit using a custom import alias instead has its
qualifier rewritten to the package name. -/
theorem claimC7_amended
    (params : Parameters) (toPkg : PkgRef) (fl tl : Bool) (used : Nat → Bool)
    (pp : String) (f : File) (s : String) (out : FileOut)
    (hpath : params.toPkgPath = params.fromPkgPath)
    (hname : params.toName = params.fromName)
    (hfl : fl = decide (pp = params.fromPkgPath))
    (htl : tl = decide (pp = params.toPkgPath))
    (ha : resolveToPkgName params toPkg f = .ok s)
    (hdef : s = toPkg.name)
    (hout : processFile params toPkg fl tl used f = .ok (some out))
    (h1 : ∀ d ∈ f.decls, ∀ e ∈ declSlots d, ∀ i ∈ exprIdents e,
      nodeFilter fl used (.ident i) = true → i.name = params.fromName)
    (h2 : ∀ d ∈ f.decls, ∀ e ∈ declSlots d, ∀ se ∈ exprSubsels e,
      nodeFilter fl used se = true → render se = toPkg.name ++ "." ++ params.fromName) :
    out.decls.map renderDecl = f.decls.map renderDecl := by
  have hft : fl = tl := by rw [hfl, htl, hpath]
  obtain ⟨hfn, hdecls, hadd⟩ := processFile_ok_parts params toPkg fl tl used f s out ha hout
  rw [hdecls, List.map_map]
  apply List.map_congr_left
  intro d hd
  show renderDecl (rewriteDecl (nodeFilter fl used) (replNode tl s params.toName) d)
    = renderDecl d
  unfold renderDecl
  rw [declSlots_rewriteDecl, List.map_map]
  apply List.map_congr_left
  intro e he
  apply render_rewrite_preserved
  · intro i hi hm
    have hfl : fl = true := by
      cases fl
      · simp [nodeFilter] at hm
      · rfl
    have htl : tl = true := hft ▸ hfl
    rw [htl]
    have := h1 d hd e he i hi hm
    simp [replNode, render, this, hname]
  · intro se hse hm
    obtain ⟨x2, s2, hshape⟩ := exprSubsels_shape e se hse
    have hfl : fl = false := by
      cases fl
      · rfl
      · rw [hshape] at hm; simp [nodeFilter] at hm
    have htl : tl = false := hft ▸ hfl
    rw [htl]
    have := h2 d hd e he se hse hm
    simp [replNode, render, this, hname, hdef]

/-- Witness for the amended claim C7: with to equal to from and the unit
referring to pkg2.T2 under the default alias, the emitted unit renders
identically to the input. -/
theorem claimC7_witness :
    processFile exParamsC7 exToPkgC7 false false (fun i => i == 10) exFileC7d
      = .ok (some exOutC7)
    ∧ exOutC7.decls.map renderDecl = exFileC7d.decls.map renderDecl :=
  ⟨by rfl,
   claimC7_amended exParamsC7 exToPkgC7 false false (fun i => i == 10) "a/b" exFileC7d
     "pkg2" exOutC7 rfl rfl (by decide) (by decide) (by rfl) rfl (by rfl)
     (by decide) (by decide)⟩

/-! ### Claim C8 -/

theorem charListLe_total : ∀ as bs : List Char,
    charListLe as bs = true ∨ charListLe bs as = true := by
  intro as
  induction as with
  | nil => intro bs; left; rfl
  | cons a as ih =>
      intro bs
      cases bs with
      | nil => right; rfl
      | cons b bs2 =>
          by_cases hab : a = b
          · subst hab
            rcases ih bs2 with h | h
            · left; simpa [charListLe] using h
            · right; simpa [charListLe] using h
          · rcases lt_or_gt_of_ne hab with hlt | hgt
            · left; simp [charListLe, hab, hlt]
            · right
              have hba : b < a := hgt
              simp [charListLe, Ne.symm hab, hba]

theorem charListLe_trans : ∀ as bs cs : List Char,
    charListLe as bs = true → charListLe bs cs = true → charListLe as cs = true := by
  intro as
  induction as with
  | nil => intro bs cs h1 h2; rfl
  | cons a as ih =>
      intro bs cs h1 h2
      cases bs with
      | nil => simp [charListLe] at h1
      | cons b bs2 =>
          cases cs with
          | nil => simp [charListLe] at h2
          | cons c cs2 =>
              by_cases hab : a = b
              · subst hab
                by_cases hbc : a = c
                · subst hbc
                  simp only [charListLe, if_pos rfl] at h1 h2 ⊢
                  exact ih bs2 cs2 h1 h2
                · simp only [charListLe, if_pos rfl] at h1
                  simpa [charListLe, hbc] using h2
              · have h1b : a < b := by simpa [charListLe, hab] using h1
                by_cases hbc : b = c
                · subst hbc
                  simp [charListLe, hab, h1b]
                · have h2b : b < c := by simpa [charListLe, hbc] using h2
                  have hac : a < c := lt_trans h1b h2b
                  simp [charListLe, ne_of_lt hac, hac]

theorem processSorted_fail (params : Parameters) (toPkg : PkgRef) :
    ∀ (done : List Pkg) (bad : Pkg) (rest : List Pkg) (e : ProcError),
      (∀ p ∈ done, (processPackage p params toPkg).2 = none) →
      (processPackage bad params toPkg).2 = some e →
      processSorted params toPkg (done ++ bad :: rest)
        = processSorted params toPkg (done ++ [bad])
      ∧ (processSorted params toPkg (done ++ [bad])).2 = some e := by
  intro done
  induction done with
  | nil =>
      intro bad rest e hdone hbad
      constructor
      · simp [processSorted, hbad]
      · simp [processSorted, hbad]
  | cons d done ih =>
      intro bad rest e hdone hbad
      have hd := hdone d (List.mem_cons_self d done)
      have ihr := ih bad rest e (fun p hp => hdone p (List.mem_cons_of_mem d hp)) hbad
      constructor
      · simp only [List.cons_append, processSorted, hd, List.append_eq]
        rw [ihr.1]
      · simp only [List.cons_append, processSorted, hd, List.append_eq]
        exact ihr.2

/-- Claim C8: the driver visits the loaded packages in ascending order of
their identifier (the canonical package path), a deterministic order, and
stops at the first failing package, propagating exactly its error: the
run's result is that of processing only the successful packages before it
and the failing one, whatever comes later in the order. -/
theorem claimC8_driver_order
    (params : Parameters) (toPkg : PkgRef) (pkgs done rest : List Pkg)
    (bad : Pkg) (e : ProcError)
    (hsplit : sortPkgs pkgs = done ++ bad :: rest)
    (hdone : ∀ p ∈ done, (processPackage p params toPkg).2 = none)
    (hbad : (processPackage bad params toPkg).2 = some e) :
    List.Sorted (fun a b => strLe a.id b.id = true) (sortPkgs pkgs)
    ∧ (sortPkgs pkgs).Perm pkgs
    ∧ process params toPkg pkgs = processSorted params toPkg (done ++ [bad])
    ∧ (process params toPkg pkgs).2 = some e := by
  have hfail := processSorted_fail params toPkg done bad rest e hdone hbad
  refine ⟨?_, List.perm_insertionSort _ pkgs, ?_, ?_⟩
  · have htot : IsTotal Pkg (fun a b => strLe a.id b.id = true) :=
      ⟨fun a b => charListLe_total a.id.data b.id.data⟩
    have htr : IsTrans Pkg (fun a b => strLe a.id b.id = true) :=
      ⟨fun a b c hab hbc => charListLe_trans a.id.data b.id.data c.id.data hab hbc⟩
    exact @List.sorted_insertionSort Pkg _ _ htot htr pkgs
  · show processSorted params toPkg (sortPkgs pkgs) = _
    rw [hsplit]
    exact hfail.1
  · show (processSorted params toPkg (sortPkgs pkgs)).2 = some e
    rw [hsplit, hfail.1]
    exact hfail.2

/-- Witness for claim C8: of three packages given unsorted, the middle one
in sorted order fails resolution and the run stops there with its error. -/
theorem claimC8_witness :
    sortPkgs exPkgsC8 = [exPkgC8a] ++ exPkgC8b :: [exPkgC8c]
    ∧ (processPackage exPkgC8b exParamsC8 exToPkgC8).2
        = some (.notFoundLocally "b/x" "T")
    ∧ (process exParamsC8 exToPkgC8 exPkgsC8).2 = some (.notFoundLocally "b/x" "T") :=
  ⟨by rfl, by rfl,
   (claimC8_driver_order exParamsC8 exToPkgC8 exPkgsC8 [exPkgC8a] [exPkgC8c] exPkgC8b
      (.notFoundLocally "b/x" "T") (by rfl) (by decide) (by rfl)).2.2.2⟩

/-! ### Claim C9 -/

/-- Claim C9: under the buffered sink policy (the overwrite flag), content
reaches disk only when the whole run succeeds: writeContent only
accumulates during processing, main exits before the flush on a failing
run, so a mid-run failure writes nothing, and a successful run flushes
exactly the accumulated buffer. -/
theorem claimC9_buffered_sink (params : Parameters) (toPkg : PkgRef) (pkgs : List Pkg) :
    (∀ e, (process params toPkg pkgs).2 = some e → mainBuffered params toPkg pkgs = [])
    ∧ ((process params toPkg pkgs).2 = none →
        mainBuffered params toPkg pkgs = (process params toPkg pkgs).1) := by
  constructor
  · intro e he
    rcases hp : process params toPkg pkgs with ⟨outs, err⟩
    rw [hp] at he
    have he2 : err = some e := he
    unfold mainBuffered
    rw [hp, he2]
  · intro hn
    rcases hp : process params toPkg pkgs with ⟨outs, err⟩
    rw [hp] at hn
    have hn2 : err = none := hn
    unfold mainBuffered
    rw [hp, hn2]

/-- Witness for claim C9: the failing three-package run writes nothing. -/
theorem claimC9_witness :
    (process exParamsC8 exToPkgC8 exPkgsC8).2 = some (.notFoundLocally "b/x" "T")
    ∧ mainBuffered exParamsC8 exToPkgC8 exPkgsC8 = [] :=
  ⟨by rfl,
   (claimC9_buffered_sink exParamsC8 exToPkgC8 exPkgsC8).1 _ (by rfl)⟩

/-! ### Claim C10 -/

theorem lastDotIdx_none_iff (l : List Char) : lastDotIdx l = none ↔ '.' ∉ l := by
  induction l with
  | nil => simp [lastDotIdx]
  | cons c rest ih =>
      cases hr : lastDotIdx rest with
      | some i =>
          have hrest : '.' ∈ rest := by
            by_contra hm
            rw [ih.mpr hm] at hr
            cases hr
          simp only [lastDotIdx, hr]
          constructor
          · intro h; cases h
          · intro h; exact absurd (List.mem_cons_of_mem c hrest) h
      | none =>
          have hrest : '.' ∉ rest := ih.mp hr
          simp only [lastDotIdx, hr]
          by_cases hc : c = '.'
          · subst hc
            simp [List.mem_cons]
          · simp [hc, List.mem_cons, hrest, Ne.symm hc]

theorem lastDotIdx_spec : ∀ (l : List Char) (i : Nat), lastDotIdx l = some i →
    l = l.take i ++ '.' :: l.drop (i + 1) ∧ '.' ∉ l.drop (i + 1) := by
  intro l
  induction l with
  | nil => intro i h; cases h
  | cons c rest ih =>
      intro i h
      cases hr : lastDotIdx rest with
      | some j =>
          rw [lastDotIdx, hr] at h
          injection h with h2
          subst h2
          obtain ⟨hsp, hnm⟩ := ih j hr
          constructor
          · simp only [List.take_succ_cons, List.drop_succ_cons, List.cons_append,
              List.cons.injEq, true_and]
            exact hsp
          · simpa [List.drop_succ_cons] using hnm
      | none =>
          rw [lastDotIdx, hr] at h
          by_cases hc : c = '.'
          · rw [if_pos hc] at h
            injection h with h2
            subst h2
            subst hc
            constructor
            · simp
            · simpa using (lastDotIdx_none_iff rest).mp hr
          · rw [if_neg hc] at h
            cases h

theorem splitAtLastDot_none_iff (s : String) :
    splitAtLastDot s = none ↔ '.' ∉ s.data := by
  unfold splitAtLastDot
  cases h : lastDotIdx s.data with
  | none => simp [(lastDotIdx_none_iff s.data).mp h]
  | some i =>
      have hmem : '.' ∈ s.data := by
        by_contra hm
        rw [(lastDotIdx_none_iff s.data).mpr hm] at h
        cases h
      simp [hmem]

theorem splitAtLastDot_spec (s a b : String)
    (h : splitAtLastDot s = some (a, b)) :
    s.data = a.data ++ '.' :: b.data ∧ '.' ∉ b.data := by
  unfold splitAtLastDot at h
  cases hr : lastDotIdx s.data with
  | none => rw [hr] at h; cases h
  | some i =>
      rw [hr] at h
      obtain ⟨hsp, hnm⟩ := lastDotIdx_spec s.data i hr
      injection h with h3
      rw [Prod.mk.injEq] at h3
      obtain ⟨ha, hb⟩ := h3
      subst ha
      subst hb
      exact ⟨hsp, hnm⟩

/-- Claim C10: parseParamters splits each of the two flag values at its
last dot, the part before being the package path and the part after the
symbol name (so the name part contains no dot), and it returns an error
exactly when a flag value contains no dot at all. -/
theorem claimC10_parse (flagFrom flagTo flagToPkgName dir : String) (ow : Bool) :
    ((∃ r, parseParamters flagFrom flagTo flagToPkgName dir ow = .ok r)
      ↔ ('.' ∈ flagFrom.data ∧ '.' ∈ flagTo.data))
    ∧ ∀ r, parseParamters flagFrom flagTo flagToPkgName dir ow = .ok r →
        flagFrom.data = r.fromPkgPath.data ++ '.' :: r.fromName.data
        ∧ '.' ∉ r.fromName.data
        ∧ flagTo.data = r.toPkgPath.data ++ '.' :: r.toName.data
        ∧ '.' ∉ r.toName.data
        ∧ r.toPkgName = flagToPkgName ∧ r.dir = dir ∧ r.overwrite = ow := by
  cases hsf : splitAtLastDot flagFrom with
  | none =>
      have hmf : '.' ∉ flagFrom.data := (splitAtLastDot_none_iff flagFrom).mp hsf
      constructor
      · constructor
        · rintro ⟨r, hr⟩
          unfold parseParamters at hr
          rw [hsf] at hr
          cases hr
        · rintro ⟨h1, h2⟩
          exact absurd h1 hmf
      · intro r hr
        unfold parseParamters at hr
        rw [hsf] at hr
        cases hr
  | some pf =>
      obtain ⟨fa, fb⟩ := pf
      have hmf : '.' ∈ flagFrom.data := by
        by_contra hm
        rw [(splitAtLastDot_none_iff flagFrom).mpr hm] at hsf
        cases hsf
      obtain ⟨hspf, hnmf⟩ := splitAtLastDot_spec flagFrom fa fb hsf
      cases hst : splitAtLastDot flagTo with
      | none =>
          have hmt : '.' ∉ flagTo.data := (splitAtLastDot_none_iff flagTo).mp hst
          constructor
          · constructor
            · rintro ⟨r, hr⟩
              unfold parseParamters at hr
              rw [hsf, hst] at hr
              cases hr
            · rintro ⟨h1, h2⟩
              exact absurd h2 hmt
          · intro r hr
            unfold parseParamters at hr
            rw [hsf, hst] at hr
            cases hr
      | some pt =>
          obtain ⟨ta, tb⟩ := pt
          have hmt : '.' ∈ flagTo.data := by
            by_contra hm
            rw [(splitAtLastDot_none_iff flagTo).mpr hm] at hst
            cases hst
          obtain ⟨hspt, hnmt⟩ := splitAtLastDot_spec flagTo ta tb hst
          have hok : parseParamters flagFrom flagTo flagToPkgName dir ow
              = .ok ⟨fa, fb, ta, tb, flagToPkgName, dir, ow⟩ := by
            unfold parseParamters
            rw [hsf, hst]
          constructor
          · exact ⟨fun _ => ⟨hmf, hmt⟩, fun _ => ⟨_, hok⟩⟩
          · intro r hr
            rw [hok] at hr
            injection hr with h2
            subst h2
            exact ⟨hspf, hnmf, hspt, hnmt, rfl, rfl, rfl⟩

/-- Witness for claim C10: a path containing dots parses at the last dot. -/
theorem claimC10_witness :
    parseParamters "example.com/a.B" "x.C" "" "" false
      = .ok ⟨"example.com/a", "B", "x", "C", "", "", false⟩
    ∧ "example.com/a.B".data = "example.com/a".data ++ '.' :: "B".data
    ∧ '.' ∉ ("B" : String).data := by
  have h := (claimC10_parse "example.com/a.B" "x.C" "" "" false).2
    ⟨"example.com/a", "B", "x", "C", "", "", false⟩ (by rfl)
  exact ⟨by rfl, h.1, h.2.1⟩

end GoChangeRef
